import Mathlib

set_option maxHeartbeats 1000000
set_option maxRecDepth 8000

/-!
Verification development for the gizmo window of `bevy_editor_pls`
(`crates/bevy_editor_pls_default_windows/src/gizmos.rs`).

The transform math of the source (glam `Vec3` / `Quat` / `Mat3A` / `Affine3A`
over IEEE `f32` / `f64`) is embedded over the rationals: every algebraic
operation (matrix product, affine inverse, quaternion-to-matrix conversion) is
the exact polynomial formula glam computes, with `ℚ` standing in for the float
scalars.  The precision casts themselves (`as f64`, `as f32`) are modelled
separately at the bit level (section on IEEE formats below), where the up-cast
is proved value-exact — which is what justifies eliding it in the rational
model.

A bevy `Transform` stores a (scale, rotation, translation) triple and denotes
the affine `compute_affine()` builds from it; a `GlobalTransform` stores an
affine and is decomposed by `to_scale_rotation_translation()` before being
handed to the gizmo.  Mirroring the spec's data model, the embedding represents
the stored `Transform` component by the affine it denotes (so `compute_affine`
and the final `GlobalTransform -> Transform` conversion of the write-back are
identities of representation), and the `GlobalTransform` component by its
decomposed (scale, rotation, translation) triple (so `to_scale_rotation_translation`
is projection and `affine()` is re-composition).
-/

namespace BevyGizmo

/-- Rational scalars stand in for the float scalars of glam. -/
abbrev Scalar := ℚ

/-- Three-component vector, after glam `Vec3`. -/
@[ext]
structure Vec3 where
  x : Scalar
  y : Scalar
  z : Scalar
deriving DecidableEq

/-- Quaternion with vector part `(x, y, z)` and scalar part `w`, after glam `Quat`. -/
@[ext]
structure Quat where
  x : Scalar
  y : Scalar
  z : Scalar
  w : Scalar
deriving DecidableEq

def Vec3.add (a b : Vec3) : Vec3 := ⟨a.x + b.x, a.y + b.y, a.z + b.z⟩

def Vec3.neg (a : Vec3) : Vec3 := ⟨-a.x, -a.y, -a.z⟩

def Vec3.smul (a : Vec3) (k : Scalar) : Vec3 := ⟨a.x * k, a.y * k, a.z * k⟩

def Vec3.dot (a b : Vec3) : Scalar := a.x * b.x + a.y * b.y + a.z * b.z

def Vec3.cross (a b : Vec3) : Vec3 :=
  ⟨a.y * b.z - a.z * b.y, a.z * b.x - a.x * b.z, a.x * b.y - a.y * b.x⟩

def Vec3.zero : Vec3 := ⟨0, 0, 0⟩

/-- Column-major 3x3 matrix: `cx`, `cy`, `cz` are the columns
(glam `x_axis`, `y_axis`, `z_axis`). -/
@[ext]
structure Mat3 where
  cx : Vec3
  cy : Vec3
  cz : Vec3
deriving DecidableEq

/-- Matrix-vector product: linear combination of the columns, as glam computes it. -/
def Mat3.mulVec (m : Mat3) (v : Vec3) : Vec3 :=
  ((m.cx.smul v.x).add (m.cy.smul v.y)).add (m.cz.smul v.z)

/-- Matrix product, column by column. -/
def Mat3.mul (a b : Mat3) : Mat3 :=
  ⟨a.mulVec b.cx, a.mulVec b.cy, a.mulVec b.cz⟩

def Mat3.transpose (m : Mat3) : Mat3 :=
  ⟨⟨m.cx.x, m.cy.x, m.cz.x⟩, ⟨m.cx.y, m.cy.y, m.cz.y⟩, ⟨m.cx.z, m.cy.z, m.cz.z⟩⟩

/-- Determinant as glam `Mat3::determinant`: `z_axis.dot(x_axis.cross(y_axis))`. -/
def Mat3.determinant (m : Mat3) : Scalar := m.cz.dot (m.cx.cross m.cy)

/-- Inverse as glam `Mat3::inverse`: scaled cross-product columns, transposed.
Field inversion of the determinant is total on `ℚ` (zero maps to zero), matching
the fact that the source computes `1.0 / det` unconditionally. -/
def Mat3.inverse (m : Mat3) : Mat3 :=
  let tmp0 := m.cy.cross m.cz
  let tmp1 := m.cz.cross m.cx
  let tmp2 := m.cx.cross m.cy
  let det := m.cz.dot tmp2
  let invDet := det⁻¹
  (Mat3.mk (tmp0.smul invDet) (tmp1.smul invDet) (tmp2.smul invDet)).transpose

def Mat3.one : Mat3 := ⟨⟨1, 0, 0⟩, ⟨0, 1, 0⟩, ⟨0, 0, 1⟩⟩

/-- Rotation matrix of a quaternion, after glam `Mat3::from_quat`
(`from_rotation_quat`): the standard polynomial formula. -/
def Mat3.fromQuat (q : Quat) : Mat3 :=
  let x2 := q.x + q.x
  let y2 := q.y + q.y
  let z2 := q.z + q.z
  let xx := q.x * x2
  let xy := q.x * y2
  let xz := q.x * z2
  let yy := q.y * y2
  let yz := q.y * z2
  let zz := q.z * z2
  let wx := q.w * x2
  let wy := q.w * y2
  let wz := q.w * z2
  ⟨⟨1 - (yy + zz), xy + wz, xz - wy⟩,
   ⟨xy - wz, 1 - (xx + zz), yz + wx⟩,
   ⟨xz + wy, yz - wx, 1 - (xx + yy)⟩⟩

/-- Affine transform: 3x3 linear part plus translation, after glam `Affine3A`. -/
@[ext]
structure Affine3 where
  m : Mat3
  t : Vec3
deriving DecidableEq

/-- Affine composition, as glam `Mul for Affine3A`:
`(a * b).matrix3 = a.matrix3 * b.matrix3`, `(a * b).translation = a.matrix3 * b.translation + a.translation`. -/
def Affine3.mul (a b : Affine3) : Affine3 :=
  ⟨a.m.mul b.m, (a.m.mulVec b.t).add a.t⟩

/-- Affine inverse, as glam `Affine3A::inverse`:
invert the linear part, then `translation = -(matrix3_inv * translation)`. -/
def Affine3.inverse (a : Affine3) : Affine3 :=
  let minv := a.m.inverse
  ⟨minv, (minv.mulVec a.t).neg⟩

def Affine3.id : Affine3 := ⟨Mat3.one, Vec3.zero⟩

/-- Decomposed transform triple: scale, rotation quaternion, translation.
This is the shape of a bevy `Transform`, of the triple returned by
`to_scale_rotation_translation`, and of the `transform_gizmo` library's
`Transform` (there in `f64`). -/
@[ext]
structure STransform where
  scale : Vec3
  rotation : Quat
  translation : Vec3
deriving DecidableEq

/-- Affine denoted by a (scale, rotation, translation) triple, after glam
`Affine3A::from_scale_rotation_translation`: rotation matrix with each column
scaled by the matching scale component, translation copied. -/
def STransform.affine (s : STransform) : Affine3 :=
  let r := Mat3.fromQuat s.rotation
  ⟨⟨r.cx.smul s.scale.x, r.cy.smul s.scale.y, r.cz.smul s.scale.z⟩, s.translation⟩


/-! The ECS world model: only the components the gizmo module reads or writes.
The `GlobalTransform` component is stored as its decomposed
(scale, rotation, translation) triple and `Transform` as the affine it denotes,
as explained in the header. -/

abbrev EntityId := ℕ

structure World where
  entities : List EntityId
  global : EntityId → Option STransform
  transform : EntityId → Option Affine3
  projection : EntityId → Option (List Scalar)
  activeEditorCamera : EntityId → Bool

/-- Writing an entity's `Transform` component (the `*transform = ...` at source
line 275); every other component map is untouched. -/
def World.setTransform (w : World) (e : EntityId) (v : Affine3) : World :=
  { w with transform := fun x => if x = e then some v else w.transform x }

inductive GizmoMode where
  | Translate
  | Rotate
  | Scale
deriving DecidableEq

inductive GizmoOrientation where
  | Global
  | Local
deriving DecidableEq

/-- Egui rectangle (the viewport clip rectangle). -/
structure Rect where
  minx : Scalar
  miny : Scalar
  maxx : Scalar
  maxy : Scalar
deriving DecidableEq

/-- The slice of the egui `Ui` handle this module reads. -/
structure Ui where
  clip_rect : Rect

/-- Column-major 16-element array of a 4x4 matrix built from an affine
(glam `Mat4::from(Affine3A)` followed by `to_cols_array`): three linear columns
with homogeneous coordinate 0, then the translation column with 1. -/
def affineToCols (a : Affine3) : List Scalar :=
  [a.m.cx.x, a.m.cx.y, a.m.cx.z, 0,
   a.m.cy.x, a.m.cy.y, a.m.cy.z, 0,
   a.m.cz.x, a.m.cz.y, a.m.cz.z, 0,
   a.t.x, a.t.y, a.t.z, 1]

/-- The fields of `transform_gizmo_egui::GizmoConfig` this module sets (source
lines 210-217); the matrices are kept as their column-major arrays.  The
element-wise f32-to-f64 cast applied to both arrays is value-exact (proved in
the precision section), so the rational model keeps the values unchanged. -/
structure GizmoConfig where
  modes : List GizmoMode
  viewport : Rect
  orientation : GizmoOrientation
  view_matrix : List Scalar
  projection_matrix : List Scalar
deriving DecidableEq

/-- Camera-space resolver (source lines 192-218): single-result query for
`(&GlobalTransform, &Projection)` filtered on `With<ActiveEditorCamera>`;
`get_single` succeeds exactly when one entity matches, and `.ok()?` turns any
other cardinality into `None`.  The view matrix is the inverse of the camera's
world affine; the projection matrix comes from the external projection
provider (stored in the model as the matrix itself). -/
def collect_gizmo_config (ui : Ui) (w : World) (gizmo_mode : List GizmoMode) :
    Option GizmoConfig :=
  match w.entities.filter (fun e =>
      w.activeEditorCamera e && (w.global e).isSome && (w.projection e).isSome) with
  | [e] =>
    match w.global e, w.projection e with
    | some camT, some proj =>
      some { modes := gizmo_mode, viewport := ui.clip_rect,
             orientation := GizmoOrientation.Local,
             view_matrix := affineToCols camT.affine.inverse,
             projection_matrix := proj }
    | _, _ => none
  | _ => none

/-- The per-entity transform submitted to the gizmo (source lines 230-242):
decompose the entity's `GlobalTransform` into (scale, rotation, translation)
and cast every component to `f64`.  In the model the global component is stored
decomposed and the f32-to-f64 cast is value-exact, so this re-packages the
triple. -/
def gizmo_transform_of (g : STransform) : STransform :=
  ⟨g.scale, g.rotation, g.translation⟩

/-- One write-back step of `draw_gizmo` (source lines 251-275) for entity `e`
with interaction result `r` (its components already cast back to `f32`, source
lines 261-274): `parent_affine = global_affine * transform.compute_affine().inverse()`,
and the stored transform is `parent_affine.inverse() * global_transform`.
A `none` result models the panic of the two `unwrap` calls (missing
`GlobalTransform` resp. missing `Transform` component). -/
def write_back (w : World) (e : EntityId) (r : STransform) : Option World :=
  match w.global e, w.transform e with
  | some g, some l =>
    let global_affine := g.affine
    let parent_affine := global_affine.mul l.inverse
    let inverse_parent_transform := parent_affine.inverse
    let global_transform := r.affine
    some (w.setTransform e (inverse_parent_transform.mul global_transform))
  | _, _ => none

/-- The interaction routine `Gizmo::interact` of the external
`transform_gizmo_egui` crate, modelled as an oracle from the submitted batch to
the optional list of updated transforms (the spec treats it as a black box with
an `interact` operation).  The egui input state and the gizmo's drag-session
state are folded into the oracle. -/
abbrev InteractOracle := List STransform → Option (List STransform)

/-- New local transform the write-back stores for an entity with current global
triple `g`, current local affine `l` and interaction result `r`: with
`P = Wcur * inverse(Lcur)` the stored value is `inverse(P) * Wnew`. -/
def new_local (g : STransform) (l : Affine3) (r : STransform) : Affine3 :=
  ((g.affine.mul l.inverse).inverse).mul r.affine

/-- The write-back loop of source lines 251-276 over the zipped
`(batch entry, interaction result)` pairs. -/
def write_back_fold (pairs : List ((STransform × EntityId) × STransform))
    (w : World) : Option World :=
  pairs.foldlM (fun wacc pr => write_back wacc pr.1.2 pr.2) w

/-- The batch built at source lines 225-244 (the `all_transform_and_entity`
binding): one `(gizmo_transform, entity)` pair per selected entity that has a
`GlobalTransform`, in selection order. -/
def all_transform_and_entity (w : World) (selected_entities : List EntityId) :
    List (STransform × EntityId) :=
  selected_entities.filterMap (fun selected =>
    (w.global selected).map (fun g => (gizmo_transform_of g, selected)))

/-- The transform round-trip converter `draw_gizmo` (source lines 219-278):
collect the batch, submit it in one interaction call, and on a `Some` result
write each returned transform back to the entity at the same batch position
(the `zip` of source line 251, realised by `write_back_fold`).  `none` models a
panic inside the write-back loop. -/
def draw_gizmo (w : World) (selected_entities : List EntityId)
    (interact : InteractOracle) : Option World :=
  let all_transform := (all_transform_and_entity w selected_entities).map Prod.fst
  match interact all_transform with
  | none => some w
  | some transforms =>
    write_back_fold ((all_transform_and_entity w selected_entities).zip transforms) w

/-- Per-window session state (source lines 16-20); the library `Gizmo` object
is represented by the configuration this module pushes into it. -/
structure GizmoState where
  camera_gizmo_active : Bool
  gizmo_mode : List GizmoMode
  gizmo : GizmoConfig

/-- Default configuration of the external `transform_gizmo_egui::Gizmo`; the
concrete field values are the library's and are irrelevant to every claim,
which only inspects fields this module itself sets. -/
def defaultGizmoConfig : GizmoConfig :=
  { modes := [], viewport := ⟨0, 0, 0, 0⟩,
    orientation := GizmoOrientation.Global, view_matrix := [],
    projection_matrix := [] }

/-- Default `GizmoState` (source lines 22-30): gizmo active, library-default
gizmo object, mode set containing only `Translate`. -/
def GizmoState.default : GizmoState :=
  { camera_gizmo_active := true, gizmo_mode := [GizmoMode.Translate],
    gizmo := defaultGizmoConfig }

/-- The viewport toolbar entry point (source lines 43-68).  When the master
flag is set it updates the gizmo configuration if the resolver produced one and
then always calls `draw_gizmo` on the selection; otherwise it does nothing.
The returned Boolean records whether `draw_gizmo` (and with it the interaction
routine) was invoked; `none` models a panic inside `draw_gizmo`. -/
def viewport_toolbar_ui (ui : Ui) (st : GizmoState) (w : World)
    (selected : List EntityId) (interact : InteractOracle) :
    Option (GizmoState × World × Bool) :=
  if st.camera_gizmo_active then
    let st1 :=
      match collect_gizmo_config ui w st.gizmo_mode with
      | some new_config => { st with gizmo := new_config }
      | none => st
    (draw_gizmo w selected interact).map (fun w1 => (st1, w1, true))
  else
    some (st, w, false)

/-! Marker synthesis (source lines 113-184). -/

/-- Components of one entity relevant to marker synthesis.  The indicator
children spawned under an entity are tracked by count: they are plain
mesh/material/name bundles that never match any of the three marker queries. -/
structure MarkerEnt where
  pointLight : Bool
  directionalLight : Bool
  camera : Bool
  editorCamera : Bool
  hasGizmoMarker : Bool
  visibilityBundle : Bool
  markerChildren : ℕ
deriving DecidableEq

/-- Deferred-command effect of one `add_gizmo_markers` run on one entity: the
three queries (`With<PointLight>`, `With<DirectionalLight>`, and
`(With<Camera>, Without<EditorCamera>)`, each `Without<HasGizmoMarker>`) are all
evaluated against the same pre-run world snapshot (bevy applies `Commands` only
after the system finishes), and the queued commands insert `HasGizmoMarker`
(an idempotent component insert), spawn one indicator child per matching query,
and for the camera query additionally insert the visibility components. -/
def markerStep (e : MarkerEnt) : MarkerEnt :=
  let pl := e.pointLight && !e.hasGizmoMarker
  let dl := e.directionalLight && !e.hasGizmoMarker
  let cam := e.camera && !e.editorCamera && !e.hasGizmoMarker
  { e with
    hasGizmoMarker := e.hasGizmoMarker || pl || dl || cam,
    visibilityBundle := e.visibilityBundle || cam,
    markerChildren := e.markerChildren +
      ((if pl then 1 else 0) + (if dl then 1 else 0) + (if cam then 1 else 0)) }

/-- The `add_gizmo_markers` system (source lines 119-184) acting on the world,
entity by entity. -/
def add_gizmo_markers (w : List MarkerEnt) : List MarkerEnt := w.map markerStep

/-- The twelve scalar components of an affine (nine matrix entries and three
translation entries), used to state per-component error bounds. -/
def affineComps (a : Affine3) : List Scalar :=
  [a.m.cx.x, a.m.cx.y, a.m.cx.z, a.m.cy.x, a.m.cy.y, a.m.cy.z,
   a.m.cz.x, a.m.cz.y, a.m.cz.z, a.t.x, a.t.y, a.t.z]

/-! IEEE-754 bit-level model of the precision casts.

Values of `f32` and `f64` are modelled by their bit fields (sign, biased
exponent, fraction).  `f32_to_f64` is the semantics of Rust's `x as f64`
(exact for every input) and `f64_to_f32` of `x as f32` (round to nearest,
ties to even, as the cast behaves on finite values).
`convert_array_f32_to_f64` mirrors the loop of source lines 185-191. -/

/-- Bit fields of an `f32`: sign, 8-bit biased exponent, 23-bit fraction. -/
structure F32 where
  sign : Bool
  exp : Fin 256
  frac : Fin 8388608
deriving DecidableEq

/-- Bit fields of an `f64`: sign, 11-bit biased exponent, 52-bit fraction. -/
structure F64 where
  sign : Bool
  exp : Fin 2048
  frac : Fin 4503599627370496
deriving DecidableEq

/-- Rational value of a finite `f32`: subnormals are `frac * 2^-149`, normals
`(2^23 + frac) * 2^(exp - 150)`, with the sign as a `±1` factor. -/
def F32.val (x : F32) : ℚ :=
  (if x.sign then -1 else 1) *
    (if x.exp.val = 0 then (x.frac.val : ℚ) * (2 : ℚ) ^ (-149 : ℤ)
     else ((8388608 + x.frac.val : ℕ) : ℚ) * (2 : ℚ) ^ ((x.exp.val : ℤ) - 150))

/-- Rational value of a finite `f64`: subnormals are `frac * 2^-1074`, normals
`(2^52 + frac) * 2^(exp - 1075)`, with the sign as a `±1` factor. -/
def F64.val (x : F64) : ℚ :=
  (if x.sign then -1 else 1) *
    (if x.exp.val = 0 then (x.frac.val : ℚ) * (2 : ℚ) ^ (-1074 : ℤ)
     else ((4503599627370496 + x.frac.val : ℕ) : ℚ)
       * (2 : ℚ) ^ ((x.exp.val : ℤ) - 1075))

/-- Total `f32` constructor from natural bit-field values; out-of-range values
are clamped by wrap-around (never exercised on the paths proved below). -/
def mkF32 (s : Bool) (e m : ℕ) : F32 :=
  ⟨s, ⟨e % 256, Nat.mod_lt _ (by norm_num)⟩,
    ⟨m % 8388608, Nat.mod_lt _ (by norm_num)⟩⟩

/-- Total `f64` constructor from natural bit-field values. -/
def mkF64 (s : Bool) (e m : ℕ) : F64 :=
  ⟨s, ⟨e % 2048, Nat.mod_lt _ (by norm_num)⟩,
    ⟨m % 4503599627370496, Nat.mod_lt _ (by norm_num)⟩⟩

/-- Rust `x as f64` on an `f32`: re-bias the exponent and widen the fraction
by 29 bits; a subnormal input is normalised using the position of its leading
bit; infinities and NaNs keep the all-ones exponent. -/
def f32_to_f64 (x : F32) : F64 :=
  if x.exp.val = 0 then
    if x.frac.val = 0 then mkF64 x.sign 0 0
    else
      let n := Nat.log2 x.frac.val
      mkF64 x.sign (n + 874) ((x.frac.val - 2 ^ n) * 2 ^ (52 - n))
  else if x.exp.val = 255 then
    mkF64 x.sign 2047 (x.frac.val * 536870912)
  else
    mkF64 x.sign (x.exp.val + 896) (x.frac.val * 536870912)

/-- Round `a / 2^d` to the nearest integer, ties to even. -/
def rshiftRNE (a d : ℕ) : ℕ :=
  let q := a / 2 ^ d
  let r := a % 2 ^ d
  if 2 * r > 2 ^ d ∨ (2 * r = 2 ^ d ∧ q % 2 = 1) then q + 1 else q

/-- Rust `x as f32` on an `f64` (round to nearest, ties to even, on finite
values; saturating at infinity).  Writing the finite input as
`sig * 2^ex`, `lv` is the floor base-2 logarithm of its magnitude: below the
`f32` normal range the value is rounded onto the fixed subnormal grid
`2^-149`, otherwise the 53-bit significand is rounded to 24 bits with a
possible carry into the exponent. -/
def f64_to_f32 (x : F64) : F32 :=
  if x.exp.val = 2047 then
    if x.frac.val = 0 then mkF32 x.sign 255 0
    else mkF32 x.sign 255 (max (x.frac.val / 536870912) 4194304)
  else
    let sig : ℕ :=
      if x.exp.val = 0 then x.frac.val else 4503599627370496 + x.frac.val
    if sig = 0 then mkF32 x.sign 0 0
    else
      let ex : ℤ := (if x.exp.val = 0 then 1 else (x.exp.val : ℤ)) - 1075
      let lv : ℤ := ex + Nat.log2 sig
      if lv ≤ -127 then
        let m := if 0 ≤ ex + 149 then sig * 2 ^ (ex + 149).toNat
          else rshiftRNE sig (-(ex + 149)).toNat
        if m < 8388608 then mkF32 x.sign 0 m else mkF32 x.sign 1 (m - 8388608)
      else
        let d : ℤ := lv - 23 - ex
        let mfull := if 0 ≤ d then rshiftRNE sig d.toNat
          else sig * 2 ^ (-d).toNat
        if 16777216 ≤ mfull then
          if 255 ≤ lv + 128 then mkF32 x.sign 255 0
          else mkF32 x.sign (lv + 128).toNat 0
        else
          if 255 ≤ lv + 127 then mkF32 x.sign 255 0
          else mkF32 x.sign (lv + 127).toNat (mfull - 8388608)

/-- The all-zero bit pattern `0.0f64`, the loop initialiser of the source. -/
def f64zero : F64 := ⟨false, ⟨0, by norm_num⟩, ⟨0, by norm_num⟩⟩

/-- The all-zero bit pattern `0.0f32`. -/
def f32zero : F32 := ⟨false, ⟨0, by norm_num⟩, ⟨0, by norm_num⟩⟩

/-- Element-wise precision cast of source lines 185-191:
`let mut result = [0.0; N]; for i in 0..N { result[i] = a[i] as f64; }`. -/
def convert_array_f32_to_f64 (a : List F32) : List F64 :=
  (List.range a.length).foldl
    (fun result i => result.set i (f32_to_f64 (a.getD i f32zero)))
    (List.replicate a.length f64zero)

/-! Concrete inputs used by witnesses and counterexamples. -/

/-- Identity transform triple: unit scale, identity quaternion, zero translation. -/
def idTriple : STransform := ⟨⟨1, 1, 1⟩, ⟨0, 0, 0, 1⟩, ⟨0, 0, 0⟩⟩

/-- A transform triple translated by `(1, 2, 3)`. -/
def movedTriple : STransform := ⟨⟨1, 1, 1⟩, ⟨0, 0, 0, 1⟩, ⟨1, 2, 3⟩⟩

/-- One-entity world: entity `0` at the identity, no cameras. -/
def w0 : World :=
  ⟨[0], fun e => if e = 0 then some idTriple else none,
    fun e => if e = 0 then some Affine3.id else none,
    fun _ => none, fun _ => false⟩

/-- Oracle of an active drag: returns the translated transform for one entity. -/
def oracleMove : InteractOracle := fun _ => some [movedTriple]

/-- Oracle of an idle gizmo: no handle is being dragged. -/
def oracleIdle : InteractOracle := fun _ => none

/-- A concrete viewport rectangle. -/
def ui0 : Ui := ⟨⟨0, 0, 640, 480⟩⟩

/-- Session state with the master gizmo flag switched off. -/
def stOff : GizmoState :=
  { camera_gizmo_active := false, gizmo_mode := [GizmoMode.Rotate],
    gizmo := defaultGizmoConfig }

/-- An unmarked entity that is both a point light and a directional light. -/
def dualLight : MarkerEnt := ⟨true, true, false, false, false, false, 0⟩

/-- An unmarked plain point light. -/
def pointLightEnt : MarkerEnt := ⟨true, false, false, false, false, false, 0⟩

/-- An already-marked camera entity. -/
def markedEnt : MarkerEnt := ⟨false, false, true, false, true, true, 1⟩

/-- The bit pattern of `1.0f32`. -/
def f32one : F32 := ⟨false, ⟨127, by norm_num⟩, ⟨0, by norm_num⟩⟩

/-! Algebraic kit for the affine model. -/

theorem Mat3.mul_assoc (a b c : Mat3) : (a.mul b).mul c = a.mul (b.mul c) := by
  ext <;> simp [Mat3.mul, Mat3.mulVec, Vec3.add, Vec3.smul] <;> ring

theorem Mat3.mulVec_mulVec (a b : Mat3) (v : Vec3) :
    (a.mul b).mulVec v = a.mulVec (b.mulVec v) := by
  ext <;> simp [Mat3.mul, Mat3.mulVec, Vec3.add, Vec3.smul] <;> ring

theorem Mat3.one_mulVec (v : Vec3) : Mat3.one.mulVec v = v := by
  ext <;> simp [Mat3.one, Mat3.mulVec, Vec3.add, Vec3.smul]

theorem Mat3.mul_one (a : Mat3) : a.mul Mat3.one = a := by
  ext <;> simp [Mat3.mul, Mat3.one, Mat3.mulVec, Vec3.add, Vec3.smul]

theorem Mat3.one_mul (a : Mat3) : Mat3.one.mul a = a := by
  ext <;> simp [Mat3.mul, Mat3.one, Mat3.mulVec, Vec3.add, Vec3.smul] <;> ring

theorem Mat3.mul_inverse (a : Mat3) (h : a.determinant ≠ 0) :
    a.mul a.inverse = Mat3.one := by
  have hd : a.cz.dot (a.cx.cross a.cy) ≠ 0 := h
  simp only [Vec3.dot, Vec3.cross] at hd
  ext <;>
    simp [Mat3.mul, Mat3.inverse, Mat3.transpose, Mat3.one, Mat3.mulVec,
      Vec3.add, Vec3.smul, Vec3.cross, Vec3.dot] <;>
    field_simp <;>
    ring

theorem Mat3.inverse_mul (a : Mat3) (h : a.determinant ≠ 0) :
    a.inverse.mul a = Mat3.one := by
  have hd : a.cz.dot (a.cx.cross a.cy) ≠ 0 := h
  simp only [Vec3.dot, Vec3.cross] at hd
  ext <;>
    simp [Mat3.mul, Mat3.inverse, Mat3.transpose, Mat3.one, Mat3.mulVec,
      Vec3.add, Vec3.smul, Vec3.cross, Vec3.dot] <;>
    field_simp <;>
    ring

theorem Affine3.comp_assoc (a b c : Affine3) :
    (a.mul b).mul c = a.mul (b.mul c) := by
  ext <;>
    simp [Affine3.mul, Mat3.mul, Mat3.mulVec, Vec3.add, Vec3.smul] <;> ring

theorem Affine3.id_mul (a : Affine3) : Affine3.id.mul a = a := by
  ext <;>
    simp [Affine3.mul, Affine3.id, Mat3.mul, Mat3.one, Mat3.mulVec, Vec3.add,
      Vec3.smul, Vec3.zero] <;> ring

theorem Affine3.mul_id (a : Affine3) : a.mul Affine3.id = a := by
  ext <;>
    simp [Affine3.mul, Affine3.id, Mat3.mul, Mat3.one, Mat3.mulVec, Vec3.add,
      Vec3.smul, Vec3.zero]

theorem Affine3.comp_inverse_right (a : Affine3) (h : a.m.determinant ≠ 0) :
    a.mul a.inverse = Affine3.id := by
  have h1 := Mat3.mul_inverse a.m h
  refine Affine3.ext h1 ?_
  show (a.m.mulVec ((a.m.inverse.mulVec a.t).neg)).add a.t = Vec3.zero
  have h3 : (a.m.mul a.m.inverse).mulVec a.t = a.t := by
    rw [h1, Mat3.one_mulVec]
  rw [Mat3.mulVec_mulVec] at h3
  have hx := congrArg Vec3.x h3
  have hy := congrArg Vec3.y h3
  have hz := congrArg Vec3.z h3
  simp [Mat3.mulVec, Vec3.add, Vec3.smul] at hx hy hz
  ext <;>
    simp [Mat3.mulVec, Vec3.add, Vec3.smul, Vec3.neg, Vec3.zero] <;>
    linarith

theorem Affine3.comp_inverse_left (a : Affine3) (h : a.m.determinant ≠ 0) :
    a.inverse.mul a = Affine3.id := by
  have h1 := Mat3.inverse_mul a.m h
  refine Affine3.ext h1 ?_
  show (a.m.inverse.mulVec a.t).add ((a.m.inverse.mulVec a.t).neg) = Vec3.zero
  ext <;> simp [Vec3.add, Vec3.neg, Vec3.zero]

/-! Write-back loop lemmas. -/

theorem write_back_eq_some {w : World} {e : EntityId} {g : STransform}
    {l : Affine3} (r : STransform) (hg : w.global e = some g)
    (ht : w.transform e = some l) :
    write_back w e r = some (w.setTransform e (new_local g l r)) := by
  simp [write_back, hg, ht, new_local]

theorem write_back_inv {w w' : World} {e : EntityId} {r : STransform}
    (h : write_back w e r = some w') :
    ∃ g l, w.global e = some g ∧ w.transform e = some l ∧
      w' = w.setTransform e (new_local g l r) := by
  cases hg : w.global e with
  | none => simp [write_back, hg] at h
  | some g =>
    cases ht : w.transform e with
    | none => simp [write_back, hg, ht] at h
    | some l =>
      rw [write_back_eq_some r hg ht] at h
      exact ⟨g, l, rfl, rfl, (Option.some_inj.mp h).symm⟩

theorem setTransform_global (w : World) (e : EntityId) (v : Affine3) :
    (w.setTransform e v).global = w.global := rfl

theorem setTransform_self (w : World) (e : EntityId) (v : Affine3) :
    (w.setTransform e v).transform e = some v := by
  simp [World.setTransform]

theorem setTransform_ne (w : World) (e : EntityId) (v : Affine3) (x : EntityId)
    (hx : x ≠ e) : (w.setTransform e v).transform x = w.transform x := by
  simp [World.setTransform, hx]

theorem write_back_fold_spec
    (pairs : List ((STransform × EntityId) × STransform)) (w w' : World)
    (hnd : (pairs.map (fun pr => pr.1.2)).Nodup)
    (hfold : write_back_fold pairs w = some w') :
    w'.global = w.global ∧
    (∀ x, x ∉ pairs.map (fun pr => pr.1.2) → w'.transform x = w.transform x) ∧
    (∀ pr ∈ pairs, ∃ g l, w.global pr.1.2 = some g ∧
      w.transform pr.1.2 = some l ∧
      w'.transform pr.1.2 = some (new_local g l pr.2)) := by
  induction pairs generalizing w with
  | nil =>
    simp only [write_back_fold, List.foldlM_nil, Option.pure_def,
      Option.some_inj] at hfold
    subst hfold
    exact ⟨rfl, fun x _ => rfl, by simp⟩
  | cons p rest ih =>
    rw [write_back_fold, List.foldlM_cons] at hfold
    cases hwb : write_back w p.1.2 p.2 with
    | none => rw [hwb] at hfold; simp at hfold
    | some w1 =>
      rw [hwb] at hfold
      simp only [Option.some_bind, Option.bind_eq_bind] at hfold
      obtain ⟨g, l, hg, ht, hw1⟩ := write_back_inv hwb
      have hnd' := hnd
      rw [List.map_cons, List.nodup_cons] at hnd'
      obtain ⟨hpe, hndr⟩ := hnd'
      obtain ⟨ihg, ihout, ihmem⟩ := ih w1 hndr hfold
      subst hw1
      refine ⟨by rw [ihg]; rfl, ?_, ?_⟩
      · intro x hx
        rw [List.map_cons, List.mem_cons] at hx
        push_neg at hx
        rw [ihout x hx.2, setTransform_ne _ _ _ _ hx.1]
      · intro pr hpr
        rw [List.mem_cons] at hpr
        rcases hpr with hpr | hpr
        · subst hpr
          refine ⟨g, l, hg, ht, ?_⟩
          rw [ihout _ hpe, setTransform_self]
        · have hprm : pr.1.2 ∈ rest.map (fun pr => pr.1.2) :=
            List.mem_map_of_mem _ hpr
          obtain ⟨g', l', hg', ht', hres⟩ := ihmem pr hpr
          have hne : pr.1.2 ≠ p.1.2 := by
            intro hcontra
            exact hpe (hcontra ▸ hprm)
          refine ⟨g', l', ?_, ?_, hres⟩
          · rw [← hg']; rfl
          · rw [← ht', setTransform_ne _ _ _ _ hne]

theorem write_back_fold_total
    (pairs : List ((STransform × EntityId) × STransform)) (w : World)
    (h : ∀ pr ∈ pairs,
      (w.global pr.1.2).isSome ∧ (w.transform pr.1.2).isSome) :
    (write_back_fold pairs w).isSome := by
  induction pairs generalizing w with
  | nil => simp [write_back_fold]
  | cons p rest ih =>
    obtain ⟨hg, ht⟩ := h p (List.mem_cons_self p rest)
    obtain ⟨g, hg'⟩ := Option.isSome_iff_exists.mp hg
    obtain ⟨l, ht'⟩ := Option.isSome_iff_exists.mp ht
    rw [write_back_fold, List.foldlM_cons, write_back_eq_some p.2 hg' ht']
    simp only [Option.some_bind, Option.bind_eq_bind]
    refine ih _ (fun pr hpr => ?_)
    obtain ⟨hg2, ht2⟩ := h pr (List.mem_cons_of_mem p hpr)
    refine ⟨hg2, ?_⟩
    by_cases hx : pr.1.2 = p.1.2
    · rw [hx, setTransform_self]; rfl
    · rw [setTransform_ne _ _ _ _ hx]; exact ht2

/-! Batch lemmas for `all_transform_and_entity`. -/

theorem batch_map_snd (w : World) (sel : List EntityId) :
    (all_transform_and_entity w sel).map Prod.snd
      = sel.filter (fun e => (w.global e).isSome) := by
  induction sel with
  | nil => rfl
  | cons e rest ih =>
    cases hg : w.global e <;>
      simp [all_transform_and_entity, List.filterMap_cons, List.filter_cons,
        hg] <;>
      simpa [all_transform_and_entity] using ih

theorem batch_mem {w : World} {sel : List EntityId} {pr : STransform × EntityId}
    (h : pr ∈ all_transform_and_entity w sel) :
    pr.2 ∈ sel ∧ ∃ g, w.global pr.2 = some g ∧ pr.1 = gizmo_transform_of g := by
  rw [all_transform_and_entity, List.mem_filterMap] at h
  obtain ⟨a, ha, hfa⟩ := h
  cases hg : w.global a with
  | none => rw [hg] at hfa; simp at hfa
  | some g =>
    rw [hg, Option.map_some'] at hfa
    obtain rfl := Option.some_inj.mp hfa
    exact ⟨ha, g, hg, rfl⟩

theorem zip_snd_sublist (l1 : List (STransform × EntityId))
    (l2 : List STransform) :
    ((l1.zip l2).map (fun pr => pr.1.2)).Sublist (l1.map Prod.snd) := by
  induction l1 generalizing l2 with
  | nil => simp
  | cons a t ih =>
    cases l2 with
    | nil => simp
    | cons b t2 =>
      rw [List.zip_cons_cons, List.map_cons, List.map_cons]
      exact List.Sublist.cons₂ _ (ih t2)

theorem zip_self_eq {α : Type} (l : List α) (p : α × α) (hp : p ∈ l.zip l) :
    p.1 = p.2 := by
  induction l with
  | nil => simp at hp
  | cons a t ih =>
    rw [List.zip_cons_cons, List.mem_cons] at hp
    rcases hp with h | h
    · rw [h]
    · exact ih h

/-! Lemmas about the IEEE model. -/

theorem log2_eqOf {a k : ℕ} (h1 : 2 ^ k ≤ a) (h2 : a < 2 ^ (k + 1)) :
    Nat.log2 a = k := by
  have hpos : 0 < 2 ^ k := Nat.pow_pos (by norm_num)
  have ha : a ≠ 0 := by omega
  have hle : k ≤ Nat.log2 a := (Nat.le_log2 ha).mpr h1
  have hlt : Nat.log2 a < k + 1 := (Nat.log2_lt ha).mpr h2
  omega

theorem rshiftRNE_exact (b d : ℕ) : rshiftRNE (b * 2 ^ d) d = b := by
  have hp : 0 < 2 ^ d := Nat.pow_pos (by norm_num)
  simp only [rshiftRNE, Nat.mul_mod_left, Nat.mul_div_cancel _ hp]
  rw [if_neg]
  omega

theorem mkF64_sign (s : Bool) (e m : ℕ) : (mkF64 s e m).sign = s := rfl

theorem mkF64_exp (s : Bool) (e m : ℕ) : (mkF64 s e m).exp.val = e % 2048 :=
  rfl

theorem mkF64_frac (s : Bool) (e m : ℕ) :
    (mkF64 s e m).frac.val = m % 4503599627370496 := rfl

theorem mkF32_sign (s : Bool) (e m : ℕ) : (mkF32 s e m).sign = s := rfl

theorem mkF32_exp (s : Bool) (e m : ℕ) : (mkF32 s e m).exp.val = e % 256 :=
  rfl

theorem mkF32_frac (s : Bool) (e m : ℕ) :
    (mkF32 s e m).frac.val = m % 8388608 := rfl

/-- The up-cast on a nonzero subnormal, written with the leading-bit position
explicit. -/
theorem f32_to_f64_subnormal (s : Bool) (m : ℕ) (he : 0 < 256)
    (hm : m < 8388608) (hm0 : m ≠ 0) :
    f32_to_f64 ⟨s, ⟨0, he⟩, ⟨m, hm⟩⟩
      = mkF64 s (Nat.log2 m + 874)
          ((m - 2 ^ Nat.log2 m) * 2 ^ (52 - Nat.log2 m)) := by
  rw [f32_to_f64]
  simp only [if_pos rfl]
  rw [if_neg hm0]
  simp

/-- The up-cast on a normal value. -/
theorem f32_to_f64_normal (s : Bool) (e m : ℕ) (he : e < 256)
    (hm : m < 8388608) (he0 : e ≠ 0) (he255 : e ≠ 255) :
    f32_to_f64 ⟨s, ⟨e, he⟩, ⟨m, hm⟩⟩ = mkF64 s (e + 896) (m * 536870912) := by
  rw [f32_to_f64, if_neg he0, if_neg he255]

/-- One fold step of the conversion loop: positions before `a.length` hold the
cast elements, the rest still hold the initialiser. -/
theorem convert_array_invariant (a : List F32) (k : ℕ) (hk : k ≤ a.length) :
    (List.range k).foldl
        (fun result i => result.set i (f32_to_f64 (a.getD i f32zero)))
        (List.replicate a.length f64zero)
      = (a.take k).map f32_to_f64
          ++ List.replicate (a.length - k) f64zero := by
  induction k with
  | zero => simp
  | succ k ih =>
    have hk' : k ≤ a.length := by omega
    rw [List.range_succ, List.foldl_append, ih hk']
    simp only [List.foldl_cons, List.foldl_nil]
    have hlen : ((a.take k).map f32_to_f64).length = k := by
      rw [List.length_map, List.length_take]
      omega
    have hsplit : a.length - k = (a.length - (k + 1)) + 1 := by omega
    rw [hsplit, List.replicate_succ]
    rw [List.set_append_right _ _ (le_of_eq hlen)]
    rw [hlen, Nat.sub_self, List.set_cons_zero]
    rw [List.take_succ]
    have hget : a[k]? = some (a.getD k f32zero) := by
      rw [List.getD_eq_getElem?_getD]
      cases hx : a[k]? with
      | none =>
        rw [List.getElem?_eq_none_iff] at hx
        omega
      | some v => rfl
    rw [hget]
    simp

/-- The conversion loop is the element-wise map. -/
theorem convert_array_eq_map (a : List F32) :
    convert_array_f32_to_f64 a = a.map f32_to_f64 := by
  rw [convert_array_f32_to_f64, convert_array_invariant a a.length (le_refl _)]
  simp

/-- Exactness of the up-cast: every finite `f32` maps to the `f64` with the
same mathematical value. -/
theorem f32_to_f64_val (x : F32) (hx : x.exp.val ≠ 255) :
    (f32_to_f64 x).val = x.val := by
  obtain ⟨s, ⟨e, he⟩, ⟨m, hm⟩⟩ := x
  simp only at hx
  by_cases h0 : e = 0
  · subst h0
    by_cases hm0 : m = 0
    · subst hm0
      simp [f32_to_f64, mkF64, F32.val, F64.val]
    · rw [f32_to_f64_subnormal s m he hm hm0]
      have hlow : 2 ^ Nat.log2 m ≤ m := Nat.log2_self_le hm0
      have hhigh : m < 2 ^ (Nat.log2 m + 1) := Nat.lt_log2_self
      have hn23 : Nat.log2 m < 23 := by
        rw [Nat.log2_lt hm0]
        norm_num
        omega
      have hsub : m - 2 ^ Nat.log2 m < 2 ^ Nat.log2 m := by
        have hp : (2:ℕ) ^ (Nat.log2 m + 1) = 2 * 2 ^ Nat.log2 m := by ring
        omega
      have hpow52 : (2:ℕ) ^ Nat.log2 m * 2 ^ (52 - Nat.log2 m)
          = 4503599627370496 := by
        rw [← pow_add]
        have h52 : Nat.log2 m + (52 - Nat.log2 m) = 52 := by omega
        rw [h52]
        norm_num
      have hM52 : (m - 2 ^ Nat.log2 m) * 2 ^ (52 - Nat.log2 m)
          < 4503599627370496 := by
        calc (m - 2 ^ Nat.log2 m) * 2 ^ (52 - Nat.log2 m)
            < 2 ^ Nat.log2 m * 2 ^ (52 - Nat.log2 m) :=
              Nat.mul_lt_mul_of_lt_of_le hsub (le_refl _)
                (Nat.pow_pos (by norm_num))
          _ = 4503599627370496 := hpow52
      have hsig : 4503599627370496
            + (m - 2 ^ Nat.log2 m) * 2 ^ (52 - Nat.log2 m)
          = m * 2 ^ (52 - Nat.log2 m) := by
        have h1 : (2:ℕ) ^ Nat.log2 m + (m - 2 ^ Nat.log2 m) = m := by omega
        calc 4503599627370496 + (m - 2 ^ Nat.log2 m) * 2 ^ (52 - Nat.log2 m)
            = 2 ^ Nat.log2 m * 2 ^ (52 - Nat.log2 m)
              + (m - 2 ^ Nat.log2 m) * 2 ^ (52 - Nat.log2 m) := by
              rw [hpow52]
          _ = (2 ^ Nat.log2 m + (m - 2 ^ Nat.log2 m))
              * 2 ^ (52 - Nat.log2 m) := (Nat.add_mul _ _ _).symm
          _ = m * 2 ^ (52 - Nat.log2 m) := by rw [h1]
      simp only [F64.val, F32.val, mkF64_sign, mkF64_exp, mkF64_frac]
      simp only [Nat.mod_eq_of_lt (show Nat.log2 m + 874 < 2048 by omega),
        Nat.mod_eq_of_lt hM52]
      simp only [if_neg (show ¬ (Nat.log2 m + 874 = 0) by omega),
        if_pos (show (0:ℕ) = 0 from rfl)]
      congr 1
      rw [hsig]
      push_cast
      rw [mul_assoc, ← zpow_natCast (2:ℚ) (52 - Nat.log2 m),
        ← zpow_add₀ (by norm_num : (2:ℚ) ≠ 0)]
      rw [show ((52 - Nat.log2 m : ℕ) : ℤ) + ((Nat.log2 m : ℤ) + 874 - 1075)
          = (-149 : ℤ) from by omega]
  · rw [f32_to_f64_normal s e m he hm h0 hx]
    have hM2 : m * 536870912 < 4503599627370496 := by omega
    have hsig2 : (4503599627370496 + m * 536870912 : ℕ)
        = (8388608 + m) * 536870912 := by
      rw [Nat.add_mul]
    simp only [F64.val, F32.val, mkF64_sign, mkF64_exp, mkF64_frac]
    simp only [Nat.mod_eq_of_lt (show e + 896 < 2048 by omega),
      Nat.mod_eq_of_lt hM2]
    simp only [if_neg (show ¬ (e + 896 = 0) by omega), if_neg h0]
    congr 1
    rw [hsig2]
    push_cast
    rw [mul_assoc]
    congr 1
    rw [show (536870912 : ℚ) = (2:ℚ) ^ ((29:ℕ) : ℤ) from by norm_num,
      ← zpow_add₀ (by norm_num : (2:ℚ) ≠ 0)]
    rw [show ((29:ℕ) : ℤ) + ((e : ℤ) + 896 - 1075) = (e : ℤ) - 150 from by
      omega]

/-- Round trip: casting a finite `f32` up to `f64` and back down recovers the
original bits. -/
theorem f64_f32_roundtrip (x : F32) (hx : x.exp.val ≠ 255) :
    f64_to_f32 (f32_to_f64 x) = x := by
  obtain ⟨s, ⟨e, he⟩, ⟨m, hm⟩⟩ := x
  simp only at hx
  by_cases h0 : e = 0
  · subst h0
    by_cases hm0 : m = 0
    · subst hm0
      rfl
    · rw [f32_to_f64_subnormal s m he hm hm0]
      have hlow : 2 ^ Nat.log2 m ≤ m := Nat.log2_self_le hm0
      have hhigh : m < 2 ^ (Nat.log2 m + 1) := Nat.lt_log2_self
      have hn23 : Nat.log2 m < 23 := by
        rw [Nat.log2_lt hm0]
        norm_num
        omega
      have hsub : m - 2 ^ Nat.log2 m < 2 ^ Nat.log2 m := by
        have hp : (2:ℕ) ^ (Nat.log2 m + 1) = 2 * 2 ^ Nat.log2 m := by ring
        omega
      have hpow52 : (2:ℕ) ^ Nat.log2 m * 2 ^ (52 - Nat.log2 m)
          = 4503599627370496 := by
        rw [← pow_add]
        have h52 : Nat.log2 m + (52 - Nat.log2 m) = 52 := by omega
        rw [h52]
        norm_num
      have hM52 : (m - 2 ^ Nat.log2 m) * 2 ^ (52 - Nat.log2 m)
          < 4503599627370496 := by
        calc (m - 2 ^ Nat.log2 m) * 2 ^ (52 - Nat.log2 m)
            < 2 ^ Nat.log2 m * 2 ^ (52 - Nat.log2 m) :=
              Nat.mul_lt_mul_of_lt_of_le hsub (le_refl _)
                (Nat.pow_pos (by norm_num))
          _ = 4503599627370496 := hpow52
      have hsig : 4503599627370496
            + (m - 2 ^ Nat.log2 m) * 2 ^ (52 - Nat.log2 m)
          = m * 2 ^ (52 - Nat.log2 m) := by
        have h1 : (2:ℕ) ^ Nat.log2 m + (m - 2 ^ Nat.log2 m) = m := by omega
        calc 4503599627370496 + (m - 2 ^ Nat.log2 m) * 2 ^ (52 - Nat.log2 m)
            = 2 ^ Nat.log2 m * 2 ^ (52 - Nat.log2 m)
              + (m - 2 ^ Nat.log2 m) * 2 ^ (52 - Nat.log2 m) := by
              rw [hpow52]
          _ = (2 ^ Nat.log2 m + (m - 2 ^ Nat.log2 m))
              * 2 ^ (52 - Nat.log2 m) := (Nat.add_mul _ _ _).symm
          _ = m * 2 ^ (52 - Nat.log2 m) := by rw [h1]
      have hlog52 : Nat.log2 (m * 2 ^ (52 - Nat.log2 m)) = 52 := by
        have h252 : (2:ℕ) ^ 52 = 2 ^ Nat.log2 m * 2 ^ (52 - Nat.log2 m) := by
          rw [hpow52]
          norm_num
        have h253 : (2:ℕ) ^ (Nat.log2 m + 1) * 2 ^ (52 - Nat.log2 m)
            = 2 ^ (52 + 1) := by
          rw [← pow_add]
          congr 1
          omega
        apply log2_eqOf
        · rw [h252]
          exact Nat.mul_le_mul_right _ hlow
        · rw [← h253]
          exact Nat.mul_lt_mul_of_lt_of_le hhigh (le_refl _)
            (Nat.pow_pos (by norm_num))
      have hsigne : ¬ (m * 2 ^ (52 - Nat.log2 m) = 0) := by
        have hp : 0 < (2:ℕ) ^ (52 - Nat.log2 m) := Nat.pow_pos (by norm_num)
        positivity
      simp only [f64_to_f32, mkF64_sign, mkF64_exp, mkF64_frac]
      simp only [Nat.mod_eq_of_lt (show Nat.log2 m + 874 < 2048 by omega),
        Nat.mod_eq_of_lt hM52]
      simp only [if_neg (show ¬ (Nat.log2 m + 874 = 2047) by omega),
        if_neg (show ¬ (Nat.log2 m + 874 = 0) by omega)]
      simp only [hsig, if_neg hsigne, hlog52]
      simp only [if_pos (show ((Nat.log2 m + 874 : ℕ) : ℤ) - 1075 + ((52:ℕ) : ℤ)
          ≤ -127 from by omega)]
      simp only [if_neg (show ¬ ((0:ℤ)
          ≤ ((Nat.log2 m + 874 : ℕ) : ℤ) - 1075 + 149) from by omega)]
      simp only [show (-(((Nat.log2 m + 874 : ℕ) : ℤ) - 1075 + 149)).toNat
          = 52 - Nat.log2 m from by omega]
      simp only [rshiftRNE_exact]
      simp only [if_pos hm]
      simp [mkF32, Nat.mod_eq_of_lt hm]
  · rw [f32_to_f64_normal s e m he hm h0 hx]
    have hM2 : m * 536870912 < 4503599627370496 := by omega
    have hsig52 : Nat.log2 (4503599627370496 + m * 536870912) = 52 := by
      apply log2_eqOf
      · norm_num
      · norm_num
        omega
    have hfactor29 : (4503599627370496 + m * 536870912 : ℕ)
        = (8388608 + m) * 2 ^ 29 := by
      rw [Nat.add_mul]
      norm_num
    simp only [f64_to_f32, mkF64_sign, mkF64_exp, mkF64_frac]
    simp only [Nat.mod_eq_of_lt (show e + 896 < 2048 by omega),
      Nat.mod_eq_of_lt hM2]
    simp only [if_neg (show ¬ (e + 896 = 2047) by omega),
      if_neg (show ¬ (e + 896 = 0) by omega)]
    simp only [if_neg (show ¬ (4503599627370496 + m * 536870912 = 0) by omega)]
    simp only [hsig52]
    simp only [if_neg (show ¬ (((e + 896 : ℕ) : ℤ) - 1075 + ((52:ℕ) : ℤ)
        ≤ -127) from by omega)]
    simp only [if_pos (show (0:ℤ) ≤ ((e + 896 : ℕ) : ℤ) - 1075 + ((52:ℕ) : ℤ)
        - 23 - (((e + 896 : ℕ) : ℤ) - 1075) from by omega)]
    simp only [show (((e + 896 : ℕ) : ℤ) - 1075 + ((52:ℕ) : ℤ)
        - 23 - (((e + 896 : ℕ) : ℤ) - 1075)).toNat = 29 from by omega]
    simp only [hfactor29, rshiftRNE_exact]
    simp only [if_neg (show ¬ (16777216 ≤ 8388608 + m) by omega)]
    simp only [if_neg (show ¬ ((255:ℤ)
        ≤ ((e + 896 : ℕ) : ℤ) - 1075 + ((52:ℕ) : ℤ) + 127) from by omega)]
    simp only [show (((e + 896 : ℕ) : ℤ) - 1075 + ((52:ℕ) : ℤ) + 127).toNat
        = e from by omega]
    simp only [show 8388608 + m - 8388608 = m from by omega]
    simp [mkF32, Nat.mod_eq_of_lt he, Nat.mod_eq_of_lt hm]

/-! Claim theorems. -/

/-- C1: for every entity written back after a gizmo interaction, with current
world affine `Wcur` (the affine of the entity's `GlobalTransform` triple `g`)
and current local transform `Lcur = l`, the stored new local transform equals
`inverse(P) * Wnew`, where `P = Wcur * inverse(Lcur)` and `Wnew` is the affine
reconstructed from the interaction routine's returned (scale, rotation,
translation); the returned components are taken after the code's cast of each
one back to single precision (`rs` holds the post-cast values). -/
theorem c1_write_back_formula (w w' : World) (selected : List EntityId)
    (interact : InteractOracle) (rs : List STransform) (i : ℕ)
    (hnd : selected.Nodup)
    (hint : interact ((all_transform_and_entity w selected).map Prod.fst)
      = some rs)
    (hdraw : draw_gizmo w selected interact = some w')
    (hi : i < (all_transform_and_entity w selected).length)
    (hj : i < rs.length) :
    ∃ g l,
      w.global ((all_transform_and_entity w selected).get ⟨i, hi⟩).2 = some g ∧
      w.transform ((all_transform_and_entity w selected).get ⟨i, hi⟩).2
        = some l ∧
      w'.transform ((all_transform_and_entity w selected).get ⟨i, hi⟩).2
        = some (((g.affine.mul l.inverse).inverse).mul
            ((rs.get ⟨i, hj⟩).affine)) := by
  simp only [draw_gizmo] at hdraw
  rw [hint] at hdraw
  have hnd2 : ((all_transform_and_entity w selected).map Prod.snd).Nodup := by
    rw [batch_map_snd]
    exact hnd.filter _
  have hnd3 : (((all_transform_and_entity w selected).zip rs).map
      (fun pr => pr.1.2)).Nodup :=
    (zip_snd_sublist _ rs).nodup hnd2
  obtain ⟨hg, hout, hmem⟩ := write_back_fold_spec _ _ _ hnd3 hdraw
  have hlen : i < ((all_transform_and_entity w selected).zip rs).length := by
    rw [List.length_zip]
    omega
  have hpair : ((all_transform_and_entity w selected).zip rs).get ⟨i, hlen⟩
      = ((all_transform_and_entity w selected).get ⟨i, hi⟩, rs.get ⟨i, hj⟩) := by
    simp [List.getElem_zip]
  have hzmem : ((all_transform_and_entity w selected).get ⟨i, hi⟩,
      rs.get ⟨i, hj⟩) ∈ (all_transform_and_entity w selected).zip rs := by
    rw [← hpair]
    exact List.get_mem _ _ _
  obtain ⟨g, l, h1, h2, h3⟩ := hmem _ hzmem
  exact ⟨g, l, h1, h2, h3⟩

/-- Witness for C1: a one-entity world at the identity, a drag that moves the
entity to translation `(1, 2, 3)`. -/
theorem c1_witness :
    ∃ g l, w0.global 0 = some g ∧ w0.transform 0 = some l ∧
      (w0.setTransform 0 (new_local idTriple Affine3.id movedTriple)).transform 0
        = some (((g.affine.mul l.inverse).inverse).mul movedTriple.affine) :=
  c1_write_back_formula w0 _ [0] oracleMove [movedTriple] 0 (by decide) rfl rfl
    (by decide) (by decide)

/-- C2: no-op idempotence of the round-trip.  With local transform `L`, parent
affine `P`, and `Wcur = P * L`, re-composing the decomposed world components
identically gives `Wnew = Wcur`, and the code's back-conversion
`inverse(Wcur * inverse(L)) * Wnew` reproduces `L` — exactly in the rational
model, hence within the claimed `1e-5` per component. -/
theorem c2_noop_roundtrip (P L : Affine3)
    (hP : P.m.determinant ≠ 0) (hL : L.m.determinant ≠ 0) :
    (((P.mul L).mul L.inverse).inverse).mul (P.mul L) = L ∧
    ∀ p ∈ (affineComps ((((P.mul L).mul L.inverse).inverse).mul
        (P.mul L))).zip (affineComps L), |p.1 - p.2| ≤ 1 / 100000 := by
  have hmain : (((P.mul L).mul L.inverse).inverse).mul (P.mul L) = L := by
    rw [Affine3.comp_assoc P L L.inverse, Affine3.comp_inverse_right L hL,
      Affine3.mul_id, ← Affine3.comp_assoc, Affine3.comp_inverse_left P hP,
      Affine3.id_mul]
  refine ⟨hmain, ?_⟩
  rw [hmain]
  intro p hp
  rw [zip_self_eq _ _ hp]
  simp

/-- Witness for C2 at a concrete invertible pair: identity parent and a
translated local transform. -/
theorem c2_witness :
    (((Affine3.id.mul movedTriple.affine).mul
        movedTriple.affine.inverse).inverse).mul
      (Affine3.id.mul movedTriple.affine) = movedTriple.affine ∧
    ∀ p ∈ (affineComps (((((Affine3.id.mul movedTriple.affine).mul
        movedTriple.affine.inverse).inverse).mul
        (Affine3.id.mul movedTriple.affine)))).zip
        (affineComps movedTriple.affine), |p.1 - p.2| ≤ 1 / 100000 :=
  c2_noop_roundtrip Affine3.id movedTriple.affine
    (by simp [Affine3.id, Mat3.one, Mat3.determinant, Vec3.dot, Vec3.cross])
    (by simp [movedTriple, STransform.affine, Mat3.fromQuat, Mat3.determinant,
          Vec3.dot, Vec3.cross, Vec3.smul])

/-- C5: batch ordering.  The submitted batch lists, in selection order, exactly
the selected entities with a resolvable world transform (first conjunct: the
entity column of the batch is the order-preserving filter of the selection;
second conjunct: each batch entry carries that entity's converted world
transform), and the i-th returned transform is written back to the entity at
batch position i (third conjunct). -/
theorem c5_batch_ordering (w w' : World) (selected : List EntityId)
    (interact : InteractOracle) (rs : List STransform)
    (hnd : selected.Nodup)
    (hint : interact ((all_transform_and_entity w selected).map Prod.fst)
      = some rs)
    (hdraw : draw_gizmo w selected interact = some w') :
    ((all_transform_and_entity w selected).map Prod.snd
      = selected.filter (fun e => (w.global e).isSome)) ∧
    (∀ pr ∈ all_transform_and_entity w selected,
      ∃ g, w.global pr.2 = some g ∧ pr.1 = gizmo_transform_of g) ∧
    (∀ i (hi : i < (all_transform_and_entity w selected).length)
        (hj : i < rs.length),
      ∃ g l,
        w.global ((all_transform_and_entity w selected).get ⟨i, hi⟩).2
          = some g ∧
        w.transform ((all_transform_and_entity w selected).get ⟨i, hi⟩).2
          = some l ∧
        w'.transform ((all_transform_and_entity w selected).get ⟨i, hi⟩).2
          = some (new_local g l (rs.get ⟨i, hj⟩))) := by
  simp only [draw_gizmo] at hdraw
  rw [hint] at hdraw
  have hnd2 : ((all_transform_and_entity w selected).map Prod.snd).Nodup := by
    rw [batch_map_snd]
    exact hnd.filter _
  have hnd3 : (((all_transform_and_entity w selected).zip rs).map
      (fun pr => pr.1.2)).Nodup :=
    (zip_snd_sublist _ rs).nodup hnd2
  obtain ⟨hg, hout, hmem⟩ := write_back_fold_spec _ _ _ hnd3 hdraw
  refine ⟨batch_map_snd w selected, ?_, ?_⟩
  · intro pr hpr
    exact (batch_mem hpr).2
  · intro i hi hj
    have hlen : i < ((all_transform_and_entity w selected).zip rs).length := by
      rw [List.length_zip]
      omega
    have hpair : ((all_transform_and_entity w selected).zip rs).get ⟨i, hlen⟩
        = ((all_transform_and_entity w selected).get ⟨i, hi⟩,
          rs.get ⟨i, hj⟩) := by
      simp [List.getElem_zip]
    have hzmem : ((all_transform_and_entity w selected).get ⟨i, hi⟩,
        rs.get ⟨i, hj⟩) ∈ (all_transform_and_entity w selected).zip rs := by
      rw [← hpair]
      exact List.get_mem _ _ _
    exact hmem _ hzmem

/-- Witness for C5 at the one-entity world. -/
theorem c5_witness :
    ((all_transform_and_entity w0 [0]).map Prod.snd
      = [0].filter (fun e => (w0.global e).isSome)) ∧
    (∀ pr ∈ all_transform_and_entity w0 [0],
      ∃ g, w0.global pr.2 = some g ∧ pr.1 = gizmo_transform_of g) ∧
    (∀ i (hi : i < (all_transform_and_entity w0 [0]).length)
        (hj : i < ([movedTriple] : List STransform).length),
      ∃ g l,
        w0.global ((all_transform_and_entity w0 [0]).get ⟨i, hi⟩).2 = some g ∧
        w0.transform ((all_transform_and_entity w0 [0]).get ⟨i, hi⟩).2
          = some l ∧
        (w0.setTransform 0
            (new_local idTriple Affine3.id movedTriple)).transform
            ((all_transform_and_entity w0 [0]).get ⟨i, hi⟩).2
          = some (new_local g l (([movedTriple] : List STransform).get
              ⟨i, hj⟩))) :=
  c5_batch_ordering w0 _ [0] oracleMove [movedTriple] (by decide) rfl rfl

/-- C7: when the interaction routine returns nothing (no handle is being
dragged), `draw_gizmo` leaves the world untouched: every entity's stored
`Transform` after the call equals its value before. -/
theorem c7_idle_no_mutation (w : World) (selected : List EntityId)
    (interact : InteractOracle)
    (hint : interact ((all_transform_and_entity w selected).map Prod.fst)
      = none) :
    draw_gizmo w selected interact = some w ∧
    ∀ w', draw_gizmo w selected interact = some w' →
      ∀ e, w'.transform e = w.transform e := by
  have h1 : draw_gizmo w selected interact = some w := by
    simp only [draw_gizmo]
    rw [hint]
  refine ⟨h1, ?_⟩
  intro w' hw' e
  rw [h1] at hw'
  obtain rfl := Option.some_inj.mp hw'
  rfl

/-- Witness for C7: idle oracle on the one-entity world. -/
theorem c7_witness :
    draw_gizmo w0 [0] oracleIdle = some w0 ∧
    ∀ w', draw_gizmo w0 [0] oracleIdle = some w' →
      ∀ e, w'.transform e = w0.transform e :=
  c7_idle_no_mutation w0 [0] oracleIdle rfl

/-- C8: the write-back treats a missing `Transform` component as a fatal
invariant violation (the model's `write_back` returns `none`, mirroring the
unchecked `unwrap` at source line 253); under the host-contract precondition
that every gizmo-eligible entity (selected and possessing a `GlobalTransform`)
also carries a `Transform`, that failure branch is unreachable: `draw_gizmo`
never panics. -/
theorem c8_unwrap_safe (w : World) (selected : List EntityId)
    (interact : InteractOracle)
    (hpre : ∀ e ∈ selected, (w.global e).isSome → (w.transform e).isSome) :
    (draw_gizmo w selected interact).isSome := by
  simp only [draw_gizmo]
  cases hint : interact ((all_transform_and_entity w selected).map Prod.fst) with
  | none => rfl
  | some rs =>
    apply write_back_fold_total
    intro pr hpr
    have hm := List.of_mem_zip hpr
    obtain ⟨hsel, g, hg, _⟩ := batch_mem hm.1
    refine ⟨by rw [hg]; rfl, hpre _ hsel (by rw [hg]; rfl)⟩

/-- Witness for C8 on the one-entity world with an active drag. -/
theorem c8_witness : (draw_gizmo w0 [0] oracleMove).isSome :=
  c8_unwrap_safe w0 [0] oracleMove (by decide)

/-- C9: within one write-back batch every parent affine is computed from the
pre-edit snapshot.  Globals are never written; entities outside the selection
(in particular any parent of an edited child) keep their stored local
transform; and the value written for each batch entity is a function of the
pre-edit world only — its `g` and `l` are read from the world as it was before
the loop ran, so earlier writes in the same batch cannot perturb the parent
affine `P = g.affine * inverse(l)` used later. -/
theorem c9_pre_edit_snapshot (w w' : World) (selected : List EntityId)
    (interact : InteractOracle) (rs : List STransform)
    (hnd : selected.Nodup)
    (hint : interact ((all_transform_and_entity w selected).map Prod.fst)
      = some rs)
    (hdraw : draw_gizmo w selected interact = some w') :
    w'.global = w.global ∧
    (∀ x, x ∉ selected → w'.transform x = w.transform x) ∧
    (∀ pr ∈ (all_transform_and_entity w selected).zip rs,
      ∃ g l, w.global pr.1.2 = some g ∧ w.transform pr.1.2 = some l ∧
        w'.transform pr.1.2 = some (new_local g l pr.2)) := by
  simp only [draw_gizmo] at hdraw
  rw [hint] at hdraw
  have hnd2 : ((all_transform_and_entity w selected).map Prod.snd).Nodup := by
    rw [batch_map_snd]
    exact hnd.filter _
  have hnd3 : (((all_transform_and_entity w selected).zip rs).map
      (fun pr => pr.1.2)).Nodup :=
    (zip_snd_sublist _ rs).nodup hnd2
  obtain ⟨hg, hout, hmem⟩ := write_back_fold_spec _ _ _ hnd3 hdraw
  refine ⟨hg, ?_, hmem⟩
  intro x hx
  apply hout
  intro hcontra
  have h1 := (zip_snd_sublist _ rs).subset hcontra
  rw [batch_map_snd] at h1
  exact hx (List.mem_of_mem_filter h1)

/-- Witness for C9 on the one-entity world with an active drag. -/
theorem c9_witness :
    (w0.setTransform 0 (new_local idTriple Affine3.id movedTriple)).global
      = w0.global ∧
    (∀ x, x ∉ ([0] : List EntityId) →
      (w0.setTransform 0
          (new_local idTriple Affine3.id movedTriple)).transform x
        = w0.transform x) ∧
    (∀ pr ∈ (all_transform_and_entity w0 [0]).zip
        ([movedTriple] : List STransform),
      ∃ g l, w0.global pr.1.2 = some g ∧ w0.transform pr.1.2 = some l ∧
        (w0.setTransform 0
            (new_local idTriple Affine3.id movedTriple)).transform pr.1.2
          = some (new_local g l pr.2)) :=
  c9_pre_edit_snapshot w0 _ [0] oracleMove [movedTriple] (by decide) rfl rfl

/-- C3 (amended): when the active-camera query (entities carrying the
`ActiveEditorCamera` tag together with a `GlobalTransform` and a `Projection`)
resolves to zero or more than one entity, the resolver returns `None` and the
stored gizmo configuration is not updated that frame.  `draw_gizmo` — and with
it the interaction routine — still runs, so whether a transform mutation occurs
that frame is independent of camera absence (see the counterexample to the
original claim). -/
theorem c3_camera_single_guard (ui : Ui) (w : World) (st : GizmoState)
    (selected : List EntityId) (interact : InteractOracle)
    (hcount : (w.entities.filter (fun e => w.activeEditorCamera e
        && (w.global e).isSome && (w.projection e).isSome)).length ≠ 1) :
    collect_gizmo_config ui w st.gizmo_mode = none ∧
    ∀ res, viewport_toolbar_ui ui st w selected interact = some res →
      res.1 = st := by
  have hnone : ∀ mode, collect_gizmo_config ui w mode = none := by
    intro mode
    rw [collect_gizmo_config]
    cases hfl : w.entities.filter (fun e => w.activeEditorCamera e
        && (w.global e).isSome && (w.projection e).isSome) with
    | nil => rfl
    | cons e rest =>
      cases rest with
      | nil =>
        exfalso
        apply hcount
        rw [hfl]
        rfl
      | cons e2 rest2 => rfl
  refine ⟨hnone _, ?_⟩
  intro res hres
  rw [viewport_toolbar_ui] at hres
  by_cases hact : st.camera_gizmo_active = true
  · rw [if_pos hact, hnone] at hres
    cases hdg : draw_gizmo w selected interact with
    | none => rw [hdg] at hres; simp at hres
    | some w1 =>
      rw [hdg] at hres
      simp only [Option.map_some', Option.some_inj] at hres
      rw [← hres]
  · rw [if_neg hact] at hres
    simp only [Option.some_inj] at hres
    rw [← hres]

/-- Witness for the amended C3: a world with no tagged camera at all. -/
theorem c3_witness :
    collect_gizmo_config ui0 w0 GizmoState.default.gizmo_mode = none ∧
    ∀ res, viewport_toolbar_ui ui0 GizmoState.default w0 [0] oracleIdle
        = some res → res.1 = GizmoState.default :=
  c3_camera_single_guard ui0 w0 GizmoState.default [0] oracleIdle (by decide)

/-- Counterexample to C3 as stated: with zero entities tagged as active editing
camera the resolver does return `None`, yet a transform mutation still occurs
that same frame when the interaction routine reports an active drag, because
`viewport_toolbar_ui` calls `draw_gizmo` whether or not a camera was found. -/
theorem c3_counterexample :
    (w0.entities.filter (fun e => w0.activeEditorCamera e)).length = 0 ∧
    collect_gizmo_config ui0 w0 GizmoState.default.gizmo_mode = none ∧
    viewport_toolbar_ui ui0 GizmoState.default w0 [0] oracleMove
      = some (GizmoState.default,
          w0.setTransform 0 (new_local idTriple Affine3.id movedTriple),
          true) ∧
    (w0.setTransform 0
        (new_local idTriple Affine3.id movedTriple)).transform 0
      ≠ w0.transform 0 := by
  refine ⟨rfl, rfl, rfl, ?_⟩
  intro hcontra
  have hty := congrArg (fun o => ((o.getD Affine3.id).t.y)) hcontra
  norm_num [new_local, STransform.affine, movedTriple, idTriple, Affine3.id,
    Affine3.mul, Affine3.inverse, Mat3.fromQuat, Mat3.one, Mat3.mul,
    Mat3.inverse, Mat3.mulVec, Mat3.transpose, Vec3.cross, Vec3.dot, Vec3.add,
    Vec3.smul, Vec3.neg, Vec3.zero, World.setTransform, w0] at hty

/-- C10: the master toggle.  With `camera_gizmo_active = false` the viewport
toolbar entry point performs no gizmo work at all: the session state (and so
the gizmo configuration) is unchanged, the world is unchanged, and the
interaction routine is not invoked (the `false` flag of the result records
that `draw_gizmo` was not called).  The default state has the flag on with only
the `Translate` mode enabled. -/
theorem c10_master_toggle (ui : Ui) (st : GizmoState) (w : World)
    (selected : List EntityId) (interact : InteractOracle)
    (hoff : st.camera_gizmo_active = false) :
    viewport_toolbar_ui ui st w selected interact = some (st, w, false) ∧
    GizmoState.default.camera_gizmo_active = true ∧
    GizmoState.default.gizmo_mode = [GizmoMode.Translate] := by
  refine ⟨?_, rfl, rfl⟩
  rw [viewport_toolbar_ui, if_neg]
  rw [hoff]
  simp

/-- Witness for C10 with the flag off and a would-be-dragging oracle. -/
theorem c10_witness :
    viewport_toolbar_ui ui0 stOff w0 [0] oracleMove = some (stOff, w0, false) ∧
    GizmoState.default.camera_gizmo_active = true ∧
    GizmoState.default.gizmo_mode = [GizmoMode.Translate] :=
  c10_master_toggle ui0 stOff w0 [0] oracleMove rfl

/-- C6 (amended): marker synthesis.  One run inserts the tag for every
eligible unmarked entity and spawns exactly one indicator child per matching
target kind — an entity matching several target kinds receives one child per
kind in that same run (the three queries are evaluated against the same
pre-run snapshot and their commands all apply).  A second run is a no-op on
the whole world, and the tag is terminal: a marked entity is never changed
again. -/
theorem c6_marker_idempotence :
    (∀ e : MarkerEnt, e.hasGizmoMarker = false →
      (markerStep e).markerChildren = e.markerChildren
        + ((if e.pointLight then 1 else 0)
          + (if e.directionalLight then 1 else 0)
          + (if e.camera && !e.editorCamera then 1 else 0)) ∧
      ((e.pointLight || e.directionalLight
          || (e.camera && !e.editorCamera)) = true →
        (markerStep e).hasGizmoMarker = true)) ∧
    (∀ w : List MarkerEnt,
      add_gizmo_markers (add_gizmo_markers w) = add_gizmo_markers w) ∧
    (∀ e : MarkerEnt, e.hasGizmoMarker = true → markerStep e = e) := by
  refine ⟨?_, ?_, ?_⟩
  · intro e he
    obtain ⟨pl, dl, cam, ec, mk, vis, n⟩ := e
    simp only at he
    subst he
    cases pl <;> cases dl <;> cases cam <;> cases ec <;>
      simp [markerStep]
  · intro w
    simp only [add_gizmo_markers, List.map_map]
    refine List.map_congr_left (fun e _ => ?_)
    obtain ⟨pl, dl, cam, ec, mk, vis, n⟩ := e
    cases pl <;> cases dl <;> cases cam <;> cases ec <;> cases mk <;>
      simp [markerStep]
  · intro e hm
    obtain ⟨pl, dl, cam, ec, mk, vis, n⟩ := e
    simp only at hm
    subst hm
    simp [markerStep]

/-- Witness for the amended C6 at concrete entities: a plain point light gains
the tag and exactly one child, a double run adds nothing, and an
already-marked entity is untouched. -/
theorem c6_witness :
    (markerStep pointLightEnt).markerChildren = pointLightEnt.markerChildren
      + ((if pointLightEnt.pointLight then 1 else 0)
        + (if pointLightEnt.directionalLight then 1 else 0)
        + (if pointLightEnt.camera && !pointLightEnt.editorCamera
            then 1 else 0)) ∧
    (markerStep pointLightEnt).hasGizmoMarker = true ∧
    add_gizmo_markers (add_gizmo_markers [pointLightEnt])
      = add_gizmo_markers [pointLightEnt] ∧
    markerStep markedEnt = markedEnt :=
  ⟨(c6_marker_idempotence.1 pointLightEnt rfl).1,
    (c6_marker_idempotence.1 pointLightEnt rfl).2 rfl,
    c6_marker_idempotence.2.1 [pointLightEnt],
    c6_marker_idempotence.2.2 markedEnt rfl⟩

/-- Counterexample to C6 as stated: an unmarked entity that is both a point
light and a directional light matches two target archetypes, and a single run
of `add_gizmo_markers` spawns two indicator children for it — not exactly
one. -/
theorem c6_counterexample :
    dualLight.hasGizmoMarker = false ∧ dualLight.pointLight = true ∧
    (add_gizmo_markers [dualLight]).map MarkerEnt.markerChildren = [2] ∧
    (add_gizmo_markers [dualLight]).map MarkerEnt.markerChildren ≠ [1] := by
  refine ⟨rfl, rfl, rfl, ?_⟩
  decide

/-- C4: the single-to-double conversion of a matrix array is an element-wise
numeric cast that preserves indexing (hence column-major ordering) exactly and
performs no re-normalization: the up-cast maps every finite `f32` to the `f64`
of the same mathematical value, and casting back down recovers the original
bits. -/
theorem c4_precision_cast :
    (∀ (a : List F32) (i : ℕ),
      (convert_array_f32_to_f64 a)[i]? = (a[i]?).map f32_to_f64) ∧
    (∀ x : F32, x.exp.val ≠ 255 →
      (f32_to_f64 x).val = x.val ∧ f64_to_f32 (f32_to_f64 x) = x) := by
  refine ⟨?_, fun x hx => ⟨f32_to_f64_val x hx, f64_f32_roundtrip x hx⟩⟩
  intro a i
  rw [convert_array_eq_map]
  exact List.getElem?_map f32_to_f64 a i

/-- Witness for C4 at the one-element array holding `1.0f32`. -/
theorem c4_witness :
    (convert_array_f32_to_f64 [f32one])[0]? = some (f32_to_f64 f32one) ∧
    (f32_to_f64 f32one).val = f32one.val ∧
    f64_to_f32 (f32_to_f64 f32one) = f32one :=
  ⟨by rw [c4_precision_cast.1 [f32one] 0]; rfl,
    (c4_precision_cast.2 f32one (by decide)).1,
    (c4_precision_cast.2 f32one (by decide)).2⟩

end BevyGizmo
